import Mathlib

/-!
# Verification of the abletoolz core against its specification

Shallow embedding of the abletoolz repository's core algorithms
(`abletoolz/utils.py`, `abletoolz/decode_encode.py`, `abletoolz/ableton_set.py`)
together with proofs about them.

Modelling conventions:
* Python `bytes`/`bytearray` values are `List Nat` (each entry a byte value).
* Python `str` values that are inspected character-by-character are `List Char`;
  decoded text is represented as its list of Unicode code points (`List Nat`).
* Python functions that can raise are modelled with `Except PyErr`, functions
  returning `None` on failure with `Option`.
* Filesystem state is abstracted to explicit predicates / records passed in.
-/

set_option maxRecDepth 10000

/-- Python exception outcomes that the modelled code can raise. -/
inductive PyErr where
  | attrError
  | valueError
  | nameError
  | indexError
  | setError
  deriving DecidableEq, Repr

/-! ## Version capability gate (`ableton_set.py` lines 42-73) -/

/-- Loop body of `version_supported`: walk the zipped component pairs
`(set_v, supported_v)`; the first strictly-greater component returns `True`,
the first strictly-smaller returns `False`; an exhausted zip returns `True`. -/
def version_supported_zip : List (Nat × Nat) → Bool
  | [] => true
  | (set_v, supported_v) :: rest =>
    if set_v > supported_v then true
    else if set_v < supported_v then false
    else version_supported_zip rest

/-- `version_supported(set_version, supported_version)` from `ableton_set.py`:
zips the two `(major, minor, patch)` triples and compares component-wise. -/
def version_supported (set_version supported_version : Nat × Nat × Nat) : Bool :=
  version_supported_zip
    [(set_version.1, supported_version.1),
     (set_version.2.1, supported_version.2.1),
     (set_version.2.2, supported_version.2.2)]

/-- Lexicographic ≥ on version triples, written from the spec's words:
the first differing component decides, all-equal counts as satisfied. -/
def lexAtLeast (v m : Nat × Nat × Nat) : Prop :=
  m.1 < v.1 ∨ (m.1 = v.1 ∧ (m.2.1 < v.2.1 ∨ (m.2.1 = v.2.1 ∧ m.2.2 ≤ v.2.2)))

instance (v m : Nat × Nat × Nat) : Decidable (lexAtLeast v m) := by
  unfold lexAtLeast; infer_instance

/-- `above_version` decorator from `ableton_set.py`: the wrapped function
raises `SetError` when `version_supported(version_tuple, supported_version)`
is false, otherwise calls the wrapped function. -/
def above_version {α β : Type} (supported_version : Nat × Nat × Nat)
    (version_tuple : Nat × Nat × Nat) (f : α → Except PyErr β) : α → Except PyErr β :=
  fun a =>
    if ¬ version_supported version_tuple supported_version then
      Except.error PyErr.setError
    else f a

/-! ## Project root search (`ableton_set.py` lines 200-216)

The filesystem is abstracted: `parents` is the ordered list of ancestor
directories of the set file (`self.path.parents`) and `hasInfo d` models
`(d / "Ableton Project Info").exists()`. -/

/-- Loop of `find_project_root_folder`: `for i, current_dir in
enumerate(self.path.parents)`, breaking once `i > max_folder_search_depth`
(= 10) and returning the first ancestor containing the sentinel folder;
`None` after the loop ends. -/
def find_project_root_loop {α : Type} (hasInfo : α → Bool) : List α → Nat → Option α
  | [], _ => none
  | current_dir :: rest, i =>
    if i > 10 then none
    else if hasInfo current_dir then some current_dir
    else find_project_root_loop hasInfo rest (i + 1)

/-- `find_project_root_folder` from `ableton_set.py` (with an empty cache). -/
def find_project_root_folder {α : Type} (parents : List α) (hasInfo : α → Bool) :
    Option α :=
  find_project_root_loop hasInfo parents 0

/-- The claim's version, written from the spec's words: examine at most 10
ancestors and return the first one containing the sentinel marker. -/
def findProjectRootSpec {α : Type} (parents : List α) (hasInfo : α → Bool) :
    Option α :=
  (parents.take 10).find? hasInfo

/-! ## Theorems: C5, C6, C9 -/

/-- C5: `version_supported v v` is true for every triple `v` (reflexivity),
and `version_supported v m` is true exactly when `v` is greater than or equal
to `m` in lexicographic order on triples. -/
theorem C5_version_supported_lex (v m : Nat × Nat × Nat) :
    version_supported v v = true ∧ (version_supported v m = true ↔ lexAtLeast v m) := by
  obtain ⟨a, b, c⟩ := v
  obtain ⟨d, e, f⟩ := m
  constructor
  · simp [version_supported, version_supported_zip]
  · simp only [version_supported, version_supported_zip, lexAtLeast]
    by_cases h1 : a > d <;> by_cases h2 : a < d <;>
      by_cases h3 : b > e <;> by_cases h4 : b < e <;>
        by_cases h5 : c > f <;> by_cases h6 : c < f <;>
          simp [h1, h2, h3, h4, h5, h6] <;> omega

/-- C6 counterexample: a gated operation invoked below the required version is
not a no-op that reports unsupported — it raises `SetError`.  At gate
`(9,0,0)` and version `(8,9,9)` the wrapped call returns the `SetError`
exception outcome and no successful (no-op) value exists. -/
theorem C6_counterexample :
    above_version (9, 0, 0) (8, 9, 9) (fun _ : Unit => Except.ok (42 : Nat)) ()
      = Except.error PyErr.setError ∧
    ¬ ∃ b : Nat, above_version (9, 0, 0) (8, 9, 9)
      (fun _ : Unit => Except.ok (42 : Nat)) () = Except.ok b := by
  constructor
  · rfl
  · intro h
    obtain ⟨b, hb⟩ := h
    simp [above_version, version_supported, version_supported_zip] at hb

/-- C6 amended: an operation gated at minimum `(9,0,0)` does not execute the
wrapped function on a document of version `(8,9,9)` — it raises a typed
`SetError` — and executes the wrapped function normally at `(9,0,0)` and
`(9,0,1)`. -/
theorem C6_above_version_gate {α β : Type} (f : α → Except PyErr β) (a : α) :
    above_version (9, 0, 0) (8, 9, 9) f a = Except.error PyErr.setError ∧
    above_version (9, 0, 0) (9, 0, 0) f a = f a ∧
    above_version (9, 0, 0) (9, 0, 1) f a = f a := by
  refine ⟨?_, ?_, ?_⟩ <;>
    simp [above_version, version_supported, version_supported_zip]

/-- C9 counterexample: with the sentinel on the 11th ancestor (index 10), the
code still finds it — it examines 11 ancestors, not at most 10 as claimed. -/
theorem C9_counterexample :
    find_project_root_folder [0, 1, 2, 3, 4, 5, 6, 7, 8, 9, 10]
        (fun d => d == 10) = some 10 ∧
    findProjectRootSpec [0, 1, 2, 3, 4, 5, 6, 7, 8, 9, 10]
        (fun d => d == 10) = none := by
  constructor <;> rfl

/-- Helper for C9: the loop starting at index `i` scans exactly the first
`11 - i` remaining ancestors. -/
theorem find_project_root_loop_eq {α : Type} (hasInfo : α → Bool) :
    ∀ (parents : List α) (i : Nat),
      find_project_root_loop hasInfo parents i = (parents.take (11 - i)).find? hasInfo := by
  intro parents
  induction parents with
  | nil => intro i; simp [find_project_root_loop]
  | cons d rest ih =>
    intro i
    rw [find_project_root_loop]
    by_cases h10 : i > 10
    · rw [if_pos h10]
      have h0 : 11 - i = 0 := by omega
      simp [h0]
    · rw [if_neg h10]
      have htake : (d :: rest).take (11 - i) = d :: rest.take (10 - i) := by
        have h11 : 11 - i = (10 - i) + 1 := by omega
        rw [h11, List.take_succ_cons]
      rw [htake]
      cases hd : hasInfo d with
      | true => simp [List.find?, hd]
      | false =>
        simp only [List.find?, hd, if_neg]
        rw [ih (i + 1)]
        have h11 : 10 - i = 11 - (i + 1) := by omega
        rw [h11]
        simp

/-- C9 amended: `find_project_root_folder` examines at most 11 ancestor
directories (indices 0 through 10): it returns the first of those containing
the sentinel marker, and none when no sentinel is found among them. -/
theorem C9_find_project_root_bound {α : Type} (parents : List α)
    (hasInfo : α → Bool) :
    find_project_root_folder parents hasInfo = (parents.take 11).find? hasInfo := by
  rw [find_project_root_folder, find_project_root_loop_eq]

/-! ## Sample reconciliation engine (`ableton_set.py` lines 643-756)

The external index (`db`) is a list of `(path, entry)` pairs in iteration
order; `found_samples` is the per-run cache, also an insertion-ordered dict.
The filesystem is abstracted by `Fs` (existence and size of a path).
`DbEntry.last_modified` models `int(smp_info.get("last_modified"))`. -/

/-- One value of the external file index: `{name, size, last_modified}`. -/
structure DbEntry where
  name : String
  size : Nat
  last_modified : Nat
  deriving DecidableEq, Repr

/-- The fields of `utils.SampleRef` that `fix_samples` reads. -/
structure SampleRefM where
  name : String
  size : Nat
  last_modified : Nat
  absolute : Option String
  relative : Option String
  relative_type : Nat
  relative_value : String
  deriving DecidableEq, Repr

/-- Abstract filesystem: existence and `stat().st_size` of a path. -/
structure Fs where
  fileExists : String → Bool
  fileSize : String → Nat

/-- Python `a / b` path joining, abstracted to strings. -/
def joinPath (a b : String) : String := a ++ "/" ++ b

/-- `pathlib.Path(p).parent` as a string: drop the final `/`-separated
component (the strings fed to it in the modelled code always use `/`). -/
def parentStr (p : String) : String :=
  String.mk (((p.data.reverse.dropWhile (· ≠ '/')).drop 1).reverse)

/-- Python `needle in haystack` substring test. -/
def containsSub (needle : List Char) : List Char → Bool
  | [] => needle.isPrefixOf []
  | c :: rest => needle.isPrefixOf (c :: rest) || containsSub needle rest

/-- `SampleRef.absolute_exists`: `self.absolute and self.absolute.exists()`. -/
def absolute_exists (ref : SampleRefM) (fs : Fs) : Bool :=
  match ref.absolute with
  | none => false
  | some p => fs.fileExists p

/-- `SampleRef.relative_exists`: `self.relative and
(self.project_root / self.relative).exists()`. -/
def relative_exists (ref : SampleRefM) (root : Option String) (fs : Fs) : Bool :=
  match ref.relative, root with
  | some r, some pr => fs.fileExists (joinPath pr r)
  | _, _ => false

/-- Filesystem/tree effect performed by one `_fix_sample` call. -/
inductive CopyAction where
  | noAction
  | copyNew
  | skipExisting
  | refuseConflict
  deriving DecidableEq, Repr

/-- Everything one `_fix_sample` call returns and mutates. -/
structure FixOutcome where
  matched : Bool
  action : CopyAction
  setRelative : Option String
  setRelativeType : Option Nat
  setAbsolute : Option String
  cacheAdd : Option (String × DbEntry)
  deriving DecidableEq, Repr

/-- `AbletonSet._fix_sample` (Python name `_fix_sample`).  `size_match` and
`modified_match` keep Python's truthiness: `parsed.size and ...` is falsy
when `parsed.size == 0`, likewise for `parsed.last_modified`. -/
def fix_sample (collect_and_save : Bool) (project_root_folder : Option String)
    (parsed : SampleRefM) (smp_info : DbEntry) (smp_path : String) (fs : Fs)
    (_force : Bool) : FixOutcome :=
  if smp_info.name ≠ parsed.name then
    ⟨false, CopyAction.noAction, none, none, none, none⟩
  else
    let size_match := parsed.size ≠ 0 ∧ smp_info.size = parsed.size
    let modified_match := parsed.last_modified ≠ 0 ∧
      parsed.last_modified = smp_info.last_modified
    if ¬ size_match ∧ ¬ modified_match then
      ⟨false, CopyAction.noAction, none, none, none, none⟩
    else
      let cacheAdd := some (smp_path, smp_info)
      match collect_and_save, project_root_folder with
      | true, some root =>
        let rel_path := if parsed.relative_type = 3 then parsed.relative_value
          else "Samples/Imported"
        let copied_sample := joinPath (joinPath root rel_path) smp_info.name
        if fs.fileExists copied_sample ∧ fs.fileSize copied_sample ≠ parsed.size then
          ⟨false, CopyAction.refuseConflict, none, none, none, cacheAdd⟩
        else if fs.fileExists copied_sample ∧ fs.fileSize copied_sample = parsed.size then
          ⟨true, CopyAction.skipExisting, some (joinPath rel_path smp_info.name),
            some 3, none, cacheAdd⟩
        else
          ⟨true, CopyAction.copyNew, some (joinPath rel_path smp_info.name),
            some 3, none, cacheAdd⟩
      | true, none =>
        ⟨true, CopyAction.noAction, none, some 1, some smp_path, cacheAdd⟩
      | false, _ =>
        ⟨true, CopyAction.noAction, none, some 1, some smp_path, cacheAdd⟩

/-- Python dict assignment `d[k] = v` on an insertion-ordered assoc list. -/
def pyDictSet (d : List (String × DbEntry)) (k : String) (v : DbEntry) :
    List (String × DbEntry) :=
  if (d.find? (fun kv => kv.1 == k)).isSome then
    d.map (fun kv => if kv.1 == k then (k, v) else kv)
  else d ++ [(k, v)]

/-- One `for smp_path, smp_info in entries: if self._fix_sample(...): break`
loop: threads the `found_samples` cache and returns the entry whose
`_fix_sample` call returned `True` (`none` models the `for`-`else` case). -/
def scan_entries (collect : Bool) (root : Option String) (parsed : SampleRefM)
    (fs : Fs) (force : Bool) :
    List (String × DbEntry) → List (String × DbEntry) →
      List (String × DbEntry) × Option (String × DbEntry)
  | [], cache => (cache, none)
  | (smp_path, smp_info) :: rest, cache =>
    let o := fix_sample collect root parsed smp_info smp_path fs force
    let cache' := match o.cacheAdd with
      | some (k, v) => pyDictSet cache k v
      | none => cache
    if o.matched then (cache', some (smp_path, smp_info))
    else scan_entries collect root parsed fs force rest cache'

/-- Loop body of `AbletonSet.fix_samples` over the sample references.
Returns `(missing_samples, fixed_samples)` counts, or the uncaught Python
exception.  The factory-pack skip dereferences `parsed.absolute.parent`,
which raises `AttributeError` when `parsed.absolute` is `None`. -/
def fix_samples_loop (db : List (String × DbEntry)) (collect : Bool)
    (force : Bool) (root : Option String) (fs : Fs) :
    List SampleRefM → List (String × DbEntry) → Nat → Nat →
      Except PyErr (Nat × Nat)
  | [], _, missing, fixed => Except.ok (missing, fixed)
  | parsed :: rest, found_samples, missing, fixed =>
    if absolute_exists parsed fs || relative_exists parsed root fs then
      fix_samples_loop db collect force root fs rest found_samples missing fixed
    else
      let missing := missing + 1
      match parsed.absolute with
      | none => Except.error PyErr.attrError
      | some p =>
        if containsSub "/Resources/Builtin/Samples".data (parentStr p).data ||
            containsSub "Ableton/Factory Packs".data (parentStr p).data then
          fix_samples_loop db collect force root fs rest found_samples missing fixed
        else
          match scan_entries collect root parsed fs force found_samples found_samples with
          | (cache', some _) =>
            fix_samples_loop db collect force root fs rest cache' missing (fixed + 1)
          | (_, none) =>
            match scan_entries collect root parsed fs force db found_samples with
            | (cache'', some _) =>
              fix_samples_loop db collect force root fs rest cache'' missing (fixed + 1)
            | (cache'', none) =>
              fix_samples_loop db collect force root fs rest cache'' missing fixed

/-- `AbletonSet.fix_samples` over the abstracted inputs. -/
def fix_samples (db : List (String × DbEntry)) (collect_and_save : Bool)
    (force : Bool) (refs : List SampleRefM) (root : Option String) (fs : Fs) :
    Except PyErr (Nat × Nat) :=
  fix_samples_loop db collect_and_save force root fs refs [] 0 0

/-- The candidate-match predicate exactly as the claim words it:
name equal and (size equal or last-modified equal). -/
def candidateSpec (entry : DbEntry) (ref : SampleRefM) : Bool :=
  entry.name == ref.name &&
    (entry.size == ref.size || entry.last_modified == ref.last_modified)

/-- The candidate-match predicate the code implements: name equal and
((declared size nonzero and size equal) or (declared last-modified nonzero
and last-modified equal)). -/
def candidateCode (entry : DbEntry) (ref : SampleRefM) : Bool :=
  entry.name == ref.name &&
    ((ref.size != 0 && entry.size == ref.size) ||
     (ref.last_modified != 0 && entry.last_modified == ref.last_modified))

/-! ## Theorems: C2, C3, C10 -/

/-- Helper for C2: outside collect-and-save mode, `_fix_sample` returns `True`
exactly on the code's candidate predicate. -/
theorem fix_sample_matched_nocollect (root : Option String) (parsed : SampleRefM)
    (smp_info : DbEntry) (smp_path : String) (fs : Fs) (force : Bool) :
    (fix_sample false root parsed smp_info smp_path fs force).matched =
      candidateCode smp_info parsed := by
  unfold fix_sample
  by_cases h1 : smp_info.name = parsed.name
  · rw [if_neg (by simpa using h1)]
    by_cases h2 : parsed.size ≠ 0 ∧ smp_info.size = parsed.size
    · have hc : candidateCode smp_info parsed = true := by
        simp only [candidateCode, Bool.and_eq_true, Bool.or_eq_true, beq_iff_eq, bne_iff_ne]
        exact ⟨h1, Or.inl ⟨h2.1, h2.2⟩⟩
      rw [if_neg (by tauto)]
      exact hc.symm
    · by_cases h3 : parsed.last_modified ≠ 0 ∧ parsed.last_modified = smp_info.last_modified
      · have hc : candidateCode smp_info parsed = true := by
          simp only [candidateCode, Bool.and_eq_true, Bool.or_eq_true, beq_iff_eq, bne_iff_ne]
          exact ⟨h1, Or.inr ⟨h3.1, h3.2.symm⟩⟩
        rw [if_neg (by tauto)]
        exact hc.symm
      · have hc : candidateCode smp_info parsed = false := by
          rw [Bool.eq_false_iff]
          simp only [candidateCode, ne_eq, Bool.and_eq_true, Bool.or_eq_true, beq_iff_eq,
            bne_iff_ne]
          rintro ⟨_, hs | hm⟩
          · exact h2 hs
          · exact h3 ⟨hm.1, hm.2.symm⟩
        rw [if_pos ⟨h2, h3⟩]
        exact hc.symm
  · have hc : candidateCode smp_info parsed = false := by
      rw [Bool.eq_false_iff]
      simp only [candidateCode, ne_eq, Bool.and_eq_true, Bool.or_eq_true, beq_iff_eq,
        bne_iff_ne]
      rintro ⟨hn, _⟩
      exact h1 hn
    rw [if_pos h1]
    exact hc.symm

/-- Helper for C2: the full-index scan takes the first entry satisfying the
code's candidate predicate (non-collect mode). -/
theorem scan_entries_nocollect (root : Option String) (parsed : SampleRefM)
    (fs : Fs) (force : Bool) :
    ∀ (entries cache : List (String × DbEntry)),
      (scan_entries false root parsed fs force entries cache).2 =
        entries.find? (fun kv => candidateCode kv.2 parsed) := by
  intro entries
  induction entries with
  | nil => intro cache; rfl
  | cons kv rest ih =>
    intro cache
    obtain ⟨smp_path, smp_info⟩ := kv
    rw [scan_entries]
    simp only [fix_sample_matched_nocollect]
    cases hm : candidateCode smp_info parsed with
    | true => simp [List.find?, hm]
    | false => simp [List.find?, hm, ih]

/-- C2 counterexample: a reference whose declared size and last-modified are
both `0` and an index entry of the same name and size `0` satisfy the claim's
candidate condition (`size` equal), yet the code rejects the entry because of
the truthiness guard `parsed.size and ...`. -/
theorem C2_counterexample :
    candidateSpec ⟨"a.wav", 0, 7⟩ ⟨"a.wav", 0, 0, some "/x/a.wav", none, 1, ""⟩ = true ∧
    (fix_sample false none ⟨"a.wav", 0, 0, some "/x/a.wav", none, 1, ""⟩ ⟨"a.wav", 0, 7⟩
      "/lib/a.wav" ⟨fun _ => false, fun _ => 0⟩ false).matched = false := by
  constructor
  · rfl
  · rfl

/-- C2 amended: an index entry is a candidate iff its name equals the
reference's name and ((the declared size is nonzero and sizes are equal) or
(the declared last-modified is nonzero and last-modifieds are equal)); in
non-collect mode the full-index scan takes the first such candidate in index
iteration order; and the spec's concrete kick.wav example (size matches,
time does not) is marked fixed via the size-match branch. -/
theorem C2_candidate_match :
    (∀ (root : Option String) (parsed : SampleRefM) (smp_info : DbEntry)
        (smp_path : String) (fs : Fs) (force : Bool),
      (fix_sample false root parsed smp_info smp_path fs force).matched =
        candidateCode smp_info parsed) ∧
    (∀ (db : List (String × DbEntry)) (root : Option String) (parsed : SampleRefM)
        (fs : Fs) (force : Bool) (cache : List (String × DbEntry)),
      (scan_entries false root parsed fs force db cache).2 =
        db.find? (fun kv => candidateCode kv.2 parsed)) ∧
    fix_samples [("/lib/kick.wav", ⟨"kick.wav", 1000, 999⟩)] false false
        [⟨"kick.wav", 1000, 123456, some "/old/kick.wav", none, 1, ""⟩] none
        ⟨fun _ => false, fun _ => 0⟩ = Except.ok (1, 1) ∧
    ((1000 : Nat) ≠ 0 ∧ (⟨"kick.wav", 1000, 999⟩ : DbEntry).size = 1000) ∧
    ¬ (123456 : Nat) = (⟨"kick.wav", 1000, 999⟩ : DbEntry).last_modified := by
  refine ⟨fix_sample_matched_nocollect,
    fun db root parsed fs force cache => scan_entries_nocollect root parsed fs force db cache,
    ?_, ?_, ?_⟩
  · rfl
  · exact ⟨by decide, rfl⟩
  · decide

/-- C3 counterexample: in collect-and-save mode, when the collect directory
already holds a same-named file whose size (1000) differs from the candidate
file's size (2000) but equals the reference's declared size, the engine still
marks the reference fixed (the claim says it must not). -/
theorem C3_counterexample :
    (⟨"kick.wav", 2000, 5⟩ : DbEntry).size ≠
      Fs.fileSize ⟨fun s => s == "R/Samples/Imported/kick.wav",
        fun s => if s == "R/Samples/Imported/kick.wav" then 1000 else 0⟩
        "R/Samples/Imported/kick.wav" ∧
    fix_sample true (some "R") ⟨"kick.wav", 1000, 5, some "/old/kick.wav", none, 1, ""⟩
        ⟨"kick.wav", 2000, 5⟩ "/lib/kick.wav"
        ⟨fun s => s == "R/Samples/Imported/kick.wav",
         fun s => if s == "R/Samples/Imported/kick.wav" then 1000 else 0⟩ false =
      ⟨true, CopyAction.skipExisting, some "Samples/Imported/kick.wav", some 3, none,
        some ("/lib/kick.wav", ⟨"kick.wav", 2000, 5⟩)⟩ := by
  constructor
  · decide
  · rfl

/-- C3 amended: in collect-and-save mode, for a matched candidate whose target
file name already exists in the collect directory, the engine compares the
existing file's size with the reference's declared size: on a mismatch it
refuses (no copy, no overwrite, reference not fixed); on a match it skips the
copy and proceeds with the repair. -/
theorem C3_collect_conflict (root : String) (parsed : SampleRefM)
    (smp_info : DbEntry) (smp_path : String) (fs : Fs) (force : Bool)
    (rel_path : String)
    (hrel : rel_path = if parsed.relative_type = 3 then parsed.relative_value
      else "Samples/Imported")
    (hmatch : candidateCode smp_info parsed = true)
    (hexists : fs.fileExists (joinPath (joinPath root rel_path) smp_info.name) = true) :
    (fs.fileSize (joinPath (joinPath root rel_path) smp_info.name) ≠ parsed.size →
      fix_sample true (some root) parsed smp_info smp_path fs force =
        ⟨false, CopyAction.refuseConflict, none, none, none, some (smp_path, smp_info)⟩) ∧
    (fs.fileSize (joinPath (joinPath root rel_path) smp_info.name) = parsed.size →
      fix_sample true (some root) parsed smp_info smp_path fs force =
        ⟨true, CopyAction.skipExisting, some (joinPath rel_path smp_info.name), some 3,
          none, some (smp_path, smp_info)⟩) := by
  simp only [candidateCode, Bool.and_eq_true, Bool.or_eq_true, beq_iff_eq, bne_iff_ne]
    at hmatch
  obtain ⟨hname, hcond⟩ := hmatch
  have hnm : ¬ smp_info.name ≠ parsed.name := by simpa using hname
  have hmm : ¬ (¬ (parsed.size ≠ 0 ∧ smp_info.size = parsed.size) ∧
      ¬ (parsed.last_modified ≠ 0 ∧ parsed.last_modified = smp_info.last_modified)) := by
    rcases hcond with hs | hm
    · exact fun hk => hk.1 hs
    · exact fun hk => hk.2 ⟨hm.1, hm.2.symm⟩
  constructor
  · intro hsize
    unfold fix_sample
    rw [if_neg hnm, if_neg hmm]
    simp only [← hrel]
    rw [if_pos ⟨hexists, hsize⟩]
  · intro hsize
    unfold fix_sample
    rw [if_neg hnm, if_neg hmm]
    simp only [← hrel]
    rw [if_neg (by simp [hexists, hsize]), if_pos ⟨hexists, hsize⟩]

/-- C3 witness for `C3_collect_conflict` at a concrete input (existing file
size equals the declared size, so the copy is skipped and the repair
proceeds). -/
theorem C3_collect_conflict_witness :
    fix_sample true (some "R") ⟨"snare.wav", 800, 4, some "/old/snare.wav", none, 1, ""⟩
        ⟨"snare.wav", 800, 9⟩ "/lib/snare.wav"
        ⟨fun s => s == "R/Samples/Imported/snare.wav",
         fun s => if s == "R/Samples/Imported/snare.wav" then 800 else 0⟩ false =
      ⟨true, CopyAction.skipExisting, some "Samples/Imported/snare.wav", some 3, none,
        some ("/lib/snare.wav", ⟨"snare.wav", 800, 9⟩)⟩ := by
  have h := (C3_collect_conflict "R" ⟨"snare.wav", 800, 4, some "/old/snare.wav", none, 1, ""⟩
    ⟨"snare.wav", 800, 9⟩ "/lib/snare.wav"
    ⟨fun s => s == "R/Samples/Imported/snare.wav",
     fun s => if s == "R/Samples/Imported/snare.wav" then 800 else 0⟩ false
    "Samples/Imported" rfl (by decide) (by decide)).2 (by decide)
  simpa using h

/-- C10: whenever an unresolved sample reference has no absolute path, the
builtin-factory-content skip check in `fix_samples` dereferences
`parsed.absolute.parent` and raises `AttributeError` instead of counting the
reference or continuing the batch. -/
theorem C10_fix_samples_attr_error (db : List (String × DbEntry))
    (collect force : Bool) (root : Option String) (fs : Fs)
    (parsed : SampleRefM) (rest : List SampleRefM)
    (habs : parsed.absolute = none)
    (hrel : relative_exists parsed root fs = false) :
    fix_samples db collect force (parsed :: rest) root fs =
      Except.error PyErr.attrError := by
  unfold fix_samples fix_samples_loop
  have hab : absolute_exists parsed fs = false := by
    unfold absolute_exists
    rw [habs]
  rw [hab, hrel]
  simp [habs]

/-- C10 witness: a concrete unresolved reference without an absolute path
makes `fix_samples` raise `AttributeError`. -/
theorem C10_witness :
    (⟨"x.wav", 5, 5, none, none, 1, ""⟩ : SampleRefM).absolute = none ∧
    relative_exists ⟨"x.wav", 5, 5, none, none, 1, ""⟩ none ⟨fun _ => false, fun _ => 0⟩
      = false ∧
    fix_samples [] false false [⟨"x.wav", 5, 5, none, none, 1, ""⟩] none
      ⟨fun _ => false, fun _ => 0⟩ = Except.error PyErr.attrError :=
  ⟨rfl, rfl,
    C10_fix_samples_attr_error [] false false none ⟨fun _ => false, fun _ => 0⟩
      ⟨"x.wav", 5, 5, none, none, 1, ""⟩ [] rfl rfl⟩

/-! ## Byte-level codecs

`utf8Decode`/`utf8Encode` model Python's strict `bytes.decode()`/
`str.encode("utf-8")` on code-point lists; `pyUtf16Decode` models
`bytes.decode("utf-16")` (BOM detection, little-endian default, surrogate
pairing); `fromhex` models `bytearray.fromhex` (pairs of hex digits,
spaces allowed between pairs, error otherwise). -/

/-- Strict UTF-8 decoding of bytes into code points: rejects stray or missing
continuation bytes, overlong forms, surrogates, and values above 0x10FFFF. -/
def utf8Decode : List Nat → Option (List Nat)
  | [] => some []
  | b :: l =>
    if b < 0x80 then (utf8Decode l).map (b :: ·)
    else if b < 0xC2 then none
    else if b < 0xE0 then
      match l with
      | c1 :: l1 =>
        if 0x80 ≤ c1 ∧ c1 < 0xC0 then
          (utf8Decode l1).map (((b - 0xC0) * 0x40 + (c1 - 0x80)) :: ·)
        else none
      | [] => none
    else if b < 0xF0 then
      match l with
      | c1 :: c2 :: l2 =>
        if (0x80 ≤ c1 ∧ c1 < 0xC0) ∧ (0x80 ≤ c2 ∧ c2 < 0xC0) ∧
            (b ≠ 0xE0 ∨ 0xA0 ≤ c1) ∧ (b ≠ 0xED ∨ c1 < 0xA0) then
          (utf8Decode l2).map
            (((b - 0xE0) * 0x1000 + (c1 - 0x80) * 0x40 + (c2 - 0x80)) :: ·)
        else none
      | _ => none
    else if b < 0xF5 then
      match l with
      | c1 :: c2 :: c3 :: l3 =>
        if (0x80 ≤ c1 ∧ c1 < 0xC0) ∧ (0x80 ≤ c2 ∧ c2 < 0xC0) ∧
            (0x80 ≤ c3 ∧ c3 < 0xC0) ∧ (b ≠ 0xF0 ∨ 0x90 ≤ c1) ∧ (b ≠ 0xF4 ∨ c1 < 0x90) then
          (utf8Decode l3).map
            (((b - 0xF0) * 0x40000 + (c1 - 0x80) * 0x1000 +
              (c2 - 0x80) * 0x40 + (c3 - 0x80)) :: ·)
        else none
      | _ => none
    else none

/-- UTF-8 encoding of one code point. -/
def utf8EncodeChar (c : Nat) : List Nat :=
  if c < 0x80 then [c]
  else if c < 0x800 then [0xC0 + c / 0x40, 0x80 + c % 0x40]
  else if c < 0x10000 then
    [0xE0 + c / 0x1000, 0x80 + (c / 0x40) % 0x40, 0x80 + c % 0x40]
  else
    [0xF0 + c / 0x40000, 0x80 + (c / 0x1000) % 0x40, 0x80 + (c / 0x40) % 0x40,
      0x80 + c % 0x40]

/-- `str.encode("utf-8")` over a code-point list. -/
def utf8Encode (s : List Nat) : List Nat := s.flatMap utf8EncodeChar

/-- Value of one hex digit character (either case), `none` otherwise. -/
def hexVal (c : Char) : Option Nat :=
  if '0' ≤ c ∧ c ≤ '9' then some (c.toNat - '0'.toNat)
  else if 'a' ≤ c ∧ c ≤ 'f' then some (c.toNat - 'a'.toNat + 10)
  else if 'A' ≤ c ∧ c ≤ 'F' then some (c.toNat - 'A'.toNat + 10)
  else none

/-- `bytearray.fromhex`: pairs of hex digits, ASCII spaces allowed between
pairs; `none` models the `ValueError` on odd length or non-hex characters. -/
def fromhex : List Char → Option (List Nat)
  | [] => some []
  | c :: rest =>
    if c = ' ' then fromhex rest
    else
      match rest with
      | [] => none
      | d :: rest2 =>
        match hexVal c, hexVal d with
        | some hi, some lo => (fromhex rest2).map ((hi * 16 + lo) :: ·)
        | _, _ => none

/-- Little-endian byte pairing into UTF-16 code units (`none` on odd length). -/
def utf16PairsLE : List Nat → Option (List Nat)
  | [] => some []
  | [_] => none
  | b0 :: b1 :: rest => (utf16PairsLE rest).map ((b0 + 256 * b1) :: ·)

/-- Big-endian byte pairing into UTF-16 code units (`none` on odd length). -/
def utf16PairsBE : List Nat → Option (List Nat)
  | [] => some []
  | [_] => none
  | b0 :: b1 :: rest => (utf16PairsBE rest).map ((256 * b0 + b1) :: ·)

/-- Combine UTF-16 code units into code points, pairing surrogates and
rejecting lone surrogates. -/
def utf16Combine : List Nat → Option (List Nat)
  | [] => some []
  | u :: us =>
    if u < 0xD800 ∨ 0xE000 ≤ u then (utf16Combine us).map (u :: ·)
    else if u < 0xDC00 then
      match us with
      | v :: us2 =>
        if 0xDC00 ≤ v ∧ v < 0xE000 then
          (utf16Combine us2).map ((0x10000 + (u - 0xD800) * 0x400 + (v - 0xDC00)) :: ·)
        else none
      | [] => none
    else none

/-- Python `bytes.decode("utf-16")`: consume a BOM when present, default to
little-endian otherwise. -/
def pyUtf16Decode (b : List Nat) : Option (List Nat) :=
  match b with
  | b0 :: b1 :: rest =>
    if b0 = 0xFF ∧ b1 = 0xFE then (utf16PairsLE rest).bind utf16Combine
    else if b0 = 0xFE ∧ b1 = 0xFF then (utf16PairsBE rest).bind utf16Combine
    else (utf16PairsLE (b0 :: b1 :: rest)).bind utf16Combine
  | short => (utf16PairsLE short).bind utf16Combine

/-! ## Binary path codec (`utils.py` lines 44-109, `decode_encode.py` 41-48) -/

/-- Python slice `l[lo:hi]`. -/
def pySlice (l : List Nat) (lo hi : Nat) : List Nat := (l.drop lo).take (hi - lo)

/-- The scanning loop of `parse_mac_data` (`utils.py` lines 51-77): `i` is the
loop index, `itm_lst` the accumulated segments.  `while i <=
last_possible_index` with `last_possible_index = len - 1` is the Nat condition
`i < byte_data.length`.  The loop index strictly increases each iteration, so
the loop is bounded by `byte_data.length` iterations; `fuel` makes that
explicit (callers pass `byte_data.length`, which `parse_mac_scan_fuel` shows
is enough for the fuel never to run out). -/
def parse_mac_scan (byte_data : List Nat) : Nat → Nat → List (List Nat) →
    List (List Nat)
  | 0, _, itm_lst => itm_lst
  | fuel + 1, i, itm_lst =>
    if h : i < byte_data.length then
      let b := byte_data.get ⟨i, h⟩
      if b = 0 ∨ b = 0xFF then parse_mac_scan byte_data fuel (i + 1) itm_lst
      else
        let potential_end := i + b + 1
        if potential_end < byte_data.length - 1 ∧
            0 ∉ pySlice byte_data (i + 1) potential_end ∧
            byte_data.get? potential_end = some 0 then
          parse_mac_scan byte_data fuel (potential_end + 1)
            (itm_lst ++ [pySlice byte_data (i + 1) potential_end])
        else parse_mac_scan byte_data fuel (i + 1) itm_lst
    else itm_lst

/-- `parse_mac_data` (`utils.py` lines 44-82): run the scan from offset 6 and
decode the concatenation of the last and second-to-last segments; `None` when
fewer than two segments were collected or UTF-8 decoding fails. -/
def parse_mac_data (byte_data : List Nat) : Option (List Nat) :=
  let itm_lst := parse_mac_scan byte_data byte_data.length 6 []
  if itm_lst.length ≥ 2 then
    match utf8Decode (itm_lst.getD (itm_lst.length - 1) []),
        utf8Decode (itm_lst.getD (itm_lst.length - 2) []) with
    | some s1, some s2 => some (s1 ++ s2)
    | _, _ => none
  else none

/-- `parse_windows_data` (`utils.py` lines 85-94): UTF-16 decode and strip NUL
characters; `None` on a decode error. -/
def parse_windows_data (byte_data : List Nat) : Option (List Nat) :=
  (pyUtf16Decode byte_data).map (List.filter (fun c => c != 0))

/-- The dispatch of `parse_hex_path` (`utils.py` lines 104-109) on the decoded
bytes: a three-zero-byte prefix selects the mac struct decoder, anything else
the windows UTF-16 decoder. -/
def dispatch_decode (byte_data : List Nat) : Option (List Nat) :=
  if byte_data.take 3 = [0, 0, 0] then parse_mac_data byte_data
  else parse_windows_data byte_data

/-- `parse_hex_path` (`utils.py` lines 97-109): empty text returns `None`;
tabs and newlines are stripped; `bytearray.fromhex` failure propagates as
`ValueError`. -/
def parse_hex_path (text : List Char) : Except PyErr (Option (List Nat)) :=
  if text = [] then Except.ok none
  else
    let abs_hash_path := (text.filter (fun c => c != '\t')).filter (fun c => c != '\n')
    match fromhex abs_hash_path with
    | none => Except.error PyErr.valueError
    | some byte_data => Except.ok (dispatch_decode byte_data)

/-- Python `f"{x:x}"` for a byte value: lowercase hex digits, no zero padding
(a single digit for values below 16). -/
def pyHexByte (x : Nat) : List Char :=
  if x < 16 then [Nat.digitChar x]
  else [Nat.digitChar (x / 16), Nat.digitChar (x % 16)]

/-- `string_to_hex` (`decode_encode.py` lines 41-48): UTF-8 encode, render
each byte as unpadded lowercase hex followed by "00", uppercase the result and
append "0000". -/
def string_to_hex (in_str : List Nat) : List Char :=
  let byte_str := utf8Encode in_str
  let prepped := (byte_str.flatMap (fun x => pyHexByte x ++ ['0', '0'])).map Char.toUpper
  prepped ++ ['0', '0', '0', '0']

deriving instance DecidableEq for Except

/-! ## C1: claim-side struct-segment scanners -/

/-- The struct-segment scanner written from the claim's words (amended bounds
condition `potential_end < length - 1`, matching the code): skip `0x00`/`0xFF`
bytes, otherwise treat the byte as a length prefix and accept the segment when
the end offset is strictly before the last index, the payload has no zero
byte, and the byte after the payload is zero.  `fuel` bounds the strictly
increasing scan index as in `parse_mac_scan`. -/
def specSegsAmended (byte_data : List Nat) : Nat → Nat → List (List Nat)
  | 0, _ => []
  | fuel + 1, i =>
    if h : i < byte_data.length then
      let b := byte_data.get ⟨i, h⟩
      if b = 0 ∨ b = 0xFF then specSegsAmended byte_data fuel (i + 1)
      else
        let potential_end := i + b + 1
        if potential_end < byte_data.length - 1 ∧
            0 ∉ pySlice byte_data (i + 1) potential_end ∧
            byte_data.get? potential_end = some 0 then
          pySlice byte_data (i + 1) potential_end ::
            specSegsAmended byte_data fuel (potential_end + 1)
        else specSegsAmended byte_data fuel (i + 1)
    else []

/-- The struct-segment scanner exactly as the claim words it: the acceptance
bound is "the computed end offset is within bounds", i.e. the end offset is a
valid index (`potential_end < length`), so the byte immediately after the
payload can be read there. -/
def specSegsClaim (byte_data : List Nat) : Nat → Nat → List (List Nat)
  | 0, _ => []
  | fuel + 1, i =>
    if h : i < byte_data.length then
      let b := byte_data.get ⟨i, h⟩
      if b = 0 ∨ b = 0xFF then specSegsClaim byte_data fuel (i + 1)
      else
        let potential_end := i + b + 1
        if potential_end < byte_data.length ∧
            0 ∉ pySlice byte_data (i + 1) potential_end ∧
            byte_data.get? potential_end = some 0 then
          pySlice byte_data (i + 1) potential_end ::
            specSegsClaim byte_data fuel (potential_end + 1)
        else specSegsClaim byte_data fuel (i + 1)
    else []

/-- Decoded path from the collected segments as the claim describes it: the
concatenation of the last two accepted segments in reverse order of
extraction; `none` when fewer than two segments were accepted or one of the
two cannot be decoded as text. -/
def macSegmentsDecode (segs : List (List Nat)) : Option (List Nat) :=
  match segs.reverse with
  | s1 :: s2 :: _ =>
    match utf8Decode s1, utf8Decode s2 with
    | some t1, some t2 => some (t1 ++ t2)
    | _, _ => none
  | _ => none

/-- The claim's description of the struct decoder, verbatim bounds reading. -/
def macDecodeClaim (byte_data : List Nat) : Option (List Nat) :=
  macSegmentsDecode (specSegsClaim byte_data byte_data.length 6)

/-- The claim's description of the struct decoder with the amended bounds
condition. -/
def macDecodeAmended (byte_data : List Nat) : Option (List Nat) :=
  macSegmentsDecode (specSegsAmended byte_data byte_data.length 6)

/-- The fuel of `parse_mac_scan` is irrelevant once it covers the remaining
scan range (the loop index strictly increases), so passing `byte_data.length`
as `parse_mac_data` does simulates the unbounded Python loop exactly. -/
theorem parse_mac_scan_fuel (byte_data : List Nat) :
    ∀ (fuel i : Nat) (itm_lst : List (List Nat)), byte_data.length - i ≤ fuel →
      parse_mac_scan byte_data fuel i itm_lst =
        parse_mac_scan byte_data (fuel + 1) i itm_lst := by
  intro fuel
  induction fuel with
  | zero =>
    intro i itm_lst h
    have hi : ¬ i < byte_data.length := by omega
    simp only [parse_mac_scan, dif_neg hi]
  | succ n ih =>
    intro i itm_lst h
    by_cases hi : i < byte_data.length
    · simp only [parse_mac_scan, dif_pos hi]
      by_cases h2 : byte_data.get ⟨i, hi⟩ = 0 ∨ byte_data.get ⟨i, hi⟩ = 255
      · simp only [if_pos h2]
        exact ih (i + 1) itm_lst (by omega)
      · simp only [if_neg h2]
        by_cases h3 : i + byte_data.get ⟨i, hi⟩ + 1 < byte_data.length - 1 ∧
            0 ∉ pySlice byte_data (i + 1) (i + byte_data.get ⟨i, hi⟩ + 1) ∧
            byte_data.get? (i + byte_data.get ⟨i, hi⟩ + 1) = some 0
        · simp only [if_pos h3]
          exact ih _ _ (by omega)
        · simp only [if_neg h3]
          exact ih (i + 1) itm_lst (by omega)
    · simp only [parse_mac_scan, dif_neg hi]

/-- Helper for C1: the source's accumulator loop equals the spec-style scanner
that conses accepted segments. -/
theorem parse_mac_scan_append (byte_data : List Nat) :
    ∀ (fuel i : Nat) (itm_lst : List (List Nat)),
      parse_mac_scan byte_data fuel i itm_lst =
        itm_lst ++ specSegsAmended byte_data fuel i := by
  intro fuel
  induction fuel with
  | zero => intro i itm_lst; simp [parse_mac_scan, specSegsAmended]
  | succ n ih =>
    intro i itm_lst
    by_cases hi : i < byte_data.length
    · simp only [parse_mac_scan, specSegsAmended, dif_pos hi]
      by_cases h2 : byte_data.get ⟨i, hi⟩ = 0 ∨ byte_data.get ⟨i, hi⟩ = 255
      · simp only [if_pos h2]
        exact ih (i + 1) itm_lst
      · simp only [if_neg h2]
        by_cases h3 : i + byte_data.get ⟨i, hi⟩ + 1 < byte_data.length - 1 ∧
            0 ∉ pySlice byte_data (i + 1) (i + byte_data.get ⟨i, hi⟩ + 1) ∧
            byte_data.get? (i + byte_data.get ⟨i, hi⟩ + 1) = some 0
        · simp only [if_pos h3]
          rw [ih]
          simp [List.append_assoc]
        · simp only [if_neg h3]
          exact ih (i + 1) itm_lst
    · simp [parse_mac_scan, specSegsAmended, dif_neg hi]

/-- Helper for C1: `parse_mac_data` computes exactly the claim's
last-two-segments decoding over the (amended-bounds) scanner. -/
theorem parse_mac_data_eq_amended (byte_data : List Nat) :
    parse_mac_data byte_data = macDecodeAmended byte_data := by
  unfold parse_mac_data macDecodeAmended macSegmentsDecode
  rw [parse_mac_scan_append]
  simp only [List.nil_append]
  rcases hrev : (specSegsAmended byte_data byte_data.length 6).reverse
    with _ | ⟨s1, rest⟩
  · have hnil : specSegsAmended byte_data byte_data.length 6 = [] := by
      have := congrArg List.reverse hrev
      simpa using this
    rw [hnil]
    rfl
  · rcases rest with _ | ⟨s2, t⟩
    · have hone : specSegsAmended byte_data byte_data.length 6 = [s1] := by
        have := congrArg List.reverse hrev
        simpa using this
      rw [hone]
      rfl
    · have hl2 : specSegsAmended byte_data byte_data.length 6 = t.reverse ++ [s2, s1] := by
        have := congrArg List.reverse hrev
        simpa using this
      rw [hl2]
      have hlen : (t.reverse ++ [s2, s1]).length = t.length + 2 := by simp
      rw [if_pos (by omega)]
      have hg1 : (t.reverse ++ [s2, s1]).getD ((t.reverse ++ [s2, s1]).length - 1) [] = s1 := by
        rw [hlen, List.getD_append_right _ _ _ _ (by simp)]
        simp
      have hg2 : (t.reverse ++ [s2, s1]).getD ((t.reverse ++ [s2, s1]).length - 2) [] = s2 := by
        rw [hlen, List.getD_append_right _ _ _ _ (by simp)]
        simp
      rw [hg1, hg2]

/-- C1 counterexample: on this byte sequence (three zero bytes, then the
header, then segments "A" and "B" with the second segment's trailing NUL being
the final byte) the claim's algorithm — end offset within bounds — accepts
both segments and decodes "BA", but the code requires the end offset to be
strictly before the last index, rejects the second segment, finds only one
segment, and returns `None`. -/
theorem C1_counterexample :
    List.take 3 [0, 0, 0, 0, 0, 0, 1, 65, 0, 1, 66, 0] = [0, 0, 0] ∧
    dispatch_decode [0, 0, 0, 0, 0, 0, 1, 65, 0, 1, 66, 0] = none ∧
    macDecodeClaim [0, 0, 0, 0, 0, 0, 1, 65, 0, 1, 66, 0] = some [66, 65] := by
  refine ⟨by decide, by decide, by decide⟩

/-- C1 amended: for every byte sequence whose first three bytes are all zero,
the decoder dispatch runs the struct-segment algorithm: scanning from offset
6, skipping `0x00`/`0xFF` bytes, treating other bytes as length prefixes and
accepting a segment only if the computed end offset is strictly before the
last index, the payload has no zero byte, and the byte immediately after the
payload is zero; the decoded path is the concatenation of the last two
accepted segments in reverse order of extraction, and the result is `None`
when fewer than two segments are accepted or a used segment cannot be decoded
as text. -/
theorem C1_struct_decoder (byte_data : List Nat)
    (h : byte_data.take 3 = [0, 0, 0]) :
    dispatch_decode byte_data = macDecodeAmended byte_data := by
  rw [dispatch_decode, if_pos h]
  exact parse_mac_data_eq_amended byte_data

/-- C1 witness: a concrete mac-format byte sequence decoded through
`C1_struct_decoder`. -/
theorem C1_struct_decoder_witness :
    List.take 3 [0, 0, 0, 0, 0, 0, 1, 65, 0, 1, 66, 0, 99] = [0, 0, 0] ∧
    dispatch_decode [0, 0, 0, 0, 0, 0, 1, 65, 0, 1, 66, 0, 99] = some [66, 65] := by
  refine ⟨by decide, ?_⟩
  rw [C1_struct_decoder [0, 0, 0, 0, 0, 0, 1, 65, 0, 1, 66, 0, 99] (by decide)]
  decide

/-! ## C4: legacy codec round trip -/

/-- ASCII code points are single UTF-8 bytes. -/
theorem utf8EncodeChar_ascii (c : Nat) (h : c ≤ 127) : utf8EncodeChar c = [c] := by
  unfold utf8EncodeChar
  rw [if_pos (by omega)]

/-- An all-ASCII code-point list UTF-8-encodes to itself. -/
theorem utf8Encode_ascii (P : List Nat) (h : ∀ c ∈ P, c ≤ 127) :
    utf8Encode P = P := by
  induction P with
  | nil => rfl
  | cons c P ih =>
    unfold utf8Encode at *
    rw [List.flatMap_cons, utf8EncodeChar_ascii c (h c (by simp)),
      ih (fun x hx => h x (by simp [hx]))]
    rfl

/-- Facts about uppercased hex digit characters, by evaluation. -/
theorem hexDigitChar_facts : ∀ d : Nat, d < 16 →
    hexVal (Char.toUpper (Nat.digitChar d)) = some d ∧
    Char.toUpper (Nat.digitChar d) ≠ '\t' ∧
    Char.toUpper (Nat.digitChar d) ≠ '\n' ∧
    Char.toUpper (Nat.digitChar d) ≠ ' ' := by
  decide

/-- Two-digit rendering of byte values 16..255. -/
theorem pyHexByte_two (c : Nat) (h : 16 ≤ c) :
    pyHexByte c = [Nat.digitChar (c / 16), Nat.digitChar (c % 16)] := by
  unfold pyHexByte
  rw [if_neg (by omega)]

/-- One hex pair step of `fromhex`. -/
theorem fromhex_pair (H1 H2 : Char) (rest : List Char) (hi lo : Nat)
    (h1 : hexVal H1 = some hi) (h2 : hexVal H2 = some lo) (hs : H1 ≠ ' ') :
    fromhex (H1 :: H2 :: rest) = (fromhex rest).map ((hi * 16 + lo) :: ·) := by
  conv_lhs => rw [fromhex]
  rw [if_neg hs]
  simp [h1, h2]

/-- `fromhex` of the uppercased hex rendering of ASCII bytes recovers the
UTF-16-style byte sequence (character byte, NUL, ..., NUL, NUL). -/
theorem fromhex_prepped (P : List Nat) (h : ∀ c ∈ P, 16 ≤ c ∧ c ≤ 127) :
    fromhex ((P.flatMap (fun x => pyHexByte x ++ ['0', '0'])).map Char.toUpper ++
        ['0', '0', '0', '0']) =
      some (P.flatMap (fun c => [c, 0]) ++ [0, 0]) := by
  induction P with
  | nil => decide
  | cons c P ih =>
    have hc := h c (by simp)
    have hdiv : c / 16 < 16 := by omega
    have hmod : c % 16 < 16 := by omega
    have hd := hexDigitChar_facts (c / 16) hdiv
    have hm := hexDigitChar_facts (c % 16) hmod
    have h0 := hexDigitChar_facts 0 (by omega)
    rw [List.flatMap_cons, pyHexByte_two c hc.1]
    simp only [List.append_assoc, List.cons_append, List.nil_append, List.map_append,
      List.map_cons]
    rw [fromhex_pair _ _ _ (c / 16) (c % 16) hd.1 hm.1 hd.2.2.2]
    have t0 : Char.toUpper '0' = '0' := by decide
    rw [t0]
    rw [fromhex_pair '0' '0' _ 0 0 (by decide) (by decide) (by decide)]
    rw [ih (fun x hx => h x (by simp [hx]))]
    have hcc : c / 16 * 16 + c % 16 = c := by omega
    rw [hcc]
    simp

/-- `fromhex` of the `string_to_hex` rendering of an ASCII path. -/
theorem fromhex_string_to_hex (P : List Nat) (h : ∀ c ∈ P, 16 ≤ c ∧ c ≤ 127) :
    fromhex (string_to_hex P) = some (P.flatMap (fun c => [c, 0]) ++ [0, 0]) := by
  simp only [string_to_hex]
  rw [utf8Encode_ascii _ (fun x hx => (h x hx).2)]
  exact fromhex_prepped P h

/-- Pairing the (byte, NUL) encoding little-endian yields the code points plus
the final NUL unit. -/
theorem utf16PairsLE_encoded (P : List Nat) :
    utf16PairsLE (P.flatMap (fun c => [c, 0]) ++ [0, 0]) = some (P ++ [0]) := by
  induction P with
  | nil => rfl
  | cons c P ih =>
    rw [List.flatMap_cons]
    simp only [List.cons_append, List.append_assoc, List.nil_append]
    rw [show utf16PairsLE (c :: 0 :: (P.flatMap (fun c => [c, 0]) ++ [0, 0])) =
      (utf16PairsLE (P.flatMap (fun c => [c, 0]) ++ [0, 0])).map ((c + 256 * 0) :: ·)
      from rfl]
    rw [ih]
    simp

/-- Code units below the surrogate range pass through `utf16Combine`. -/
theorem utf16Combine_low (us : List Nat) (h : ∀ u ∈ us, u < 0xD800) :
    utf16Combine us = some us := by
  induction us with
  | nil => rfl
  | cons u us ih =>
    rw [utf16Combine.eq_def]
    dsimp only
    rw [if_pos (Or.inl (h u (by simp)))]
    rw [ih (fun x hx => h x (by simp [hx]))]
    rfl

/-- Filtering the trailing NUL away recovers the original code points. -/
theorem filter_nul_encoded (P : List Nat) (h : ∀ c ∈ P, c ≠ 0) :
    (P ++ [0]).filter (fun c => c != 0) = P := by
  rw [List.filter_append]
  have h1 : List.filter (fun c => c != 0) [0] = [] := rfl
  have h2 : P.filter (fun c => c != 0) = P :=
    List.filter_eq_self.mpr (fun a ha => by simpa using h a ha)
  rw [h1, h2, List.append_nil]

/-- Characters of `string_to_hex` output are never tabs or newlines. -/
theorem string_to_hex_not_stripped (P : List Nat) (h : ∀ c ∈ P, 16 ≤ c ∧ c ≤ 127) :
    ∀ x ∈ string_to_hex P, x ≠ '\t' ∧ x ≠ '\n' := by
  intro x hx
  simp only [string_to_hex] at hx
  rw [utf8Encode_ascii _ (fun c hc => (h c hc).2)] at hx
  rcases List.mem_append.mp hx with hx | hx
  · obtain ⟨y, hy, rfl⟩ := List.mem_map.mp hx
    obtain ⟨c, hc, hyc⟩ := List.mem_flatMap.mp hy
    rcases List.mem_append.mp hyc with hyc | hyc
    · rw [pyHexByte_two c (h c hc).1] at hyc
      have hdiv : c / 16 < 16 := by have := (h c hc).2; omega
      have hmod : c % 16 < 16 := by omega
      rcases List.mem_cons.mp hyc with rfl | hyc
      · exact ⟨(hexDigitChar_facts _ hdiv).2.1, (hexDigitChar_facts _ hdiv).2.2.1⟩
      · rcases List.mem_cons.mp hyc with rfl | hyc
        · exact ⟨(hexDigitChar_facts _ hmod).2.1, (hexDigitChar_facts _ hmod).2.2.1⟩
        · simp at hyc
    · have : y = '0' := by simpa using hyc
      subst this
      constructor <;> decide
  · have : x = '0' := by simpa using hx
    subst this
    constructor <;> decide

/-- Stripping tabs and newlines from a string containing neither is the
identity. -/
theorem pyStrip_eq_self (s : List Char) (h : ∀ x ∈ s, x ≠ '\t' ∧ x ≠ '\n') :
    (s.filter (fun c => c != '\t')).filter (fun c => c != '\n') = s := by
  have h1 : s.filter (fun c => c != '\t') = s :=
    List.filter_eq_self.mpr (fun a ha => by simpa using (h a ha).1)
  rw [h1]
  exact List.filter_eq_self.mpr (fun a ha => by simpa using (h a ha).2)

/-- The windows UTF-16 decoder inverts the (byte, NUL) encoding of ASCII
code points. -/
theorem parse_windows_encoded (P : List Nat) (h : ∀ c ∈ P, 16 ≤ c ∧ c ≤ 127) :
    parse_windows_data (P.flatMap (fun c => [c, 0]) ++ [0, 0]) = some P := by
  unfold parse_windows_data
  have hdec : pyUtf16Decode (P.flatMap (fun c => [c, 0]) ++ [0, 0]) = some (P ++ [0]) := by
    cases P with
    | nil => decide
    | cons c P' =>
      have hle := utf16PairsLE_encoded (c :: P')
      rw [List.flatMap_cons] at hle ⊢
      simp only [List.cons_append, List.append_assoc, List.nil_append] at hle ⊢
      rw [pyUtf16Decode.eq_def]
      dsimp only
      have hc := h c (by simp)
      rw [if_neg (by
        rintro ⟨-, h254⟩
        exact absurd h254 (by decide))]
      rw [if_neg (by
        rintro ⟨-, h255⟩
        exact absurd h255 (by decide))]
      rw [hle]
      rw [Option.some_bind]
      rw [utf16Combine_low _ (by
        intro u hu
        rcases List.mem_cons.mp hu with rfl | hu
        · omega
        · rcases List.mem_append.mp hu with hu | hu
          · have := h u (by simp [hu])
            omega
          · have : u = 0 := by simpa using hu
            omega)]
  rw [hdec]
  rw [Option.map_some']
  rw [filter_nul_encoded P (fun c hc => by have := (h c hc).1; omega)]

/-- C4 amended: for every path string of characters with code points in
[0x10, 0x7F], decoding the legacy-schema encoding yields the path again:
`string_to_hex` produces the two-digit hex of each UTF-8 byte followed by
"00" plus a trailing "0000", and `parse_hex_path` of that hex string (whose
bytes do not begin with three zero bytes, hence dispatch to the UTF-16
decoder) returns the path with all NULs stripped. -/
theorem C4_round_trip (P : List Nat) (h : ∀ c ∈ P, 16 ≤ c ∧ c ≤ 127) :
    parse_hex_path (string_to_hex P) = Except.ok (some P) := by
  have hne : string_to_hex P ≠ [] := by simp [string_to_hex]
  unfold parse_hex_path
  rw [if_neg hne]
  show (match fromhex (((string_to_hex P).filter (fun c => c != '\t')).filter
      (fun c => c != '\n')) with
    | none => Except.error PyErr.valueError
    | some byte_data => Except.ok (dispatch_decode byte_data)) = Except.ok (some P)
  rw [pyStrip_eq_self _ (string_to_hex_not_stripped P h), fromhex_string_to_hex P h]
  dsimp only
  suffices hd : dispatch_decode (P.flatMap (fun c => [c, 0]) ++ [0, 0]) = some P by
    rw [hd]
  cases P with
  | nil => decide
  | cons c P' =>
    unfold dispatch_decode
    rw [if_neg (by
      intro heq
      rw [List.flatMap_cons] at heq
      simp only [List.cons_append, List.append_assoc, List.nil_append,
        List.take_succ_cons, List.cons.injEq] at heq
      have := (h c (by simp)).1
      omega)]
    exact parse_windows_encoded (c :: P') h

/-- C4 witness: the concrete ASCII path "kick" round-trips. -/
theorem C4_round_trip_witness :
    parse_hex_path (string_to_hex [107, 105, 99, 107]) =
      Except.ok (some [107, 105, 99, 107]) :=
  C4_round_trip [107, 105, 99, 107] (by decide)

/-- C4 counterexample: the tab character (code point 9) is an ASCII path
string, but `f"{x:x}"` renders its byte as a single hex digit, the resulting
hex string has odd length, and `bytearray.fromhex` raises `ValueError` inside
`parse_hex_path` — the decode of the encode is an exception, not the original
string. -/
theorem C4_counterexample :
    parse_hex_path (string_to_hex [9]) = Except.error PyErr.valueError ∧
    parse_hex_path (string_to_hex [9]) ≠ Except.ok (some [9]) := by
  refine ⟨by decide, by decide⟩

/-! ## Hex/string transcoder (`decode_encode.py` lines 11-16 and 51-59) -/

/-- The strip in `xml_to_string`:
`xml_str.replace("\t", "").replace(" ", "").replace("\n", "")`. -/
def pyStripXml (s : List Char) : List Char :=
  ((s.filter (fun c => c != '\t')).filter (fun c => c != ' ')).filter (fun c => c != '\n')

/-- Python `str.split("\n")`. -/
def splitNl : List Char → List (List Char)
  | [] => [[]]
  | c :: rest =>
    if c = '\n' then [] :: splitNl rest
    else
      match splitNl rest with
      | l :: ls => (c :: l) :: ls
      | [] => [[c]]

/-- Python `str.splitlines()` for text whose only line separator is `"\n"`:
like splitting on `"\n"` except that a trailing newline produces no final
empty line and the empty string has no lines. -/
def pySplitlines (s : List Char) : List (List Char) :=
  if s = [] then []
  else if s.getLast? = some '\n' then splitNl s.dropLast
  else splitNl s

/-- `xml_to_string` (`decode_encode.py` lines 11-16): empty text raises (the
`DecodeError` name used there is undefined, so the raise itself fails —
modelled as an error outcome); the indent level is the tab count of the second
physical line (`IndexError` when there is none); the hex content is the text
with tabs, spaces and newlines stripped. -/
def xml_to_string (xml_str : List Char) : Except PyErr (List Char × Nat) :=
  if xml_str = [] then Except.error PyErr.nameError
  else
    match (pySplitlines xml_str).get? 1 with
    | none => Except.error PyErr.indexError
    | some line1 => Except.ok (pyStripXml xml_str, line1.count '\t')

/-- Model of `textwrap.wrap(s, initial_indent=ind, subsequent_indent=ind,
break_long_words=True, tabsize=4, width=80+levels)` with `len(ind) = levels`,
for an input with no whitespace and no hyphens (hex content): the single long
word is broken greedily into chunks of `width - levels = 80` characters (the
indents are prepended by the caller).  The scan consumes at least one
character per chunk, so `s.length` fuel suffices. -/
def wrapChunks80 : Nat → List Char → List (List Char)
  | _, [] => []
  | fuel + 1, s => if s.length ≤ 80 then [s] else s.take 80 :: wrapChunks80 fuel (s.drop 80)
  | 0, s => [s]

/-- Python `"\n".join`. -/
def joinLines : List (List Char) → List Char
  | [] => []
  | [l] => l
  | l :: ls => l ++ '\n' :: joinLines ls

/-- `string_to_xml` (`decode_encode.py` lines 51-59): wrap the hex string into
tab-indented lines at most `80 + levels` wide, preceded by a newline and
followed by a newline plus one-shallower closing indent. -/
def string_to_xml (in_str : List Char) (levels : Nat) : List Char :=
  let indent := List.replicate levels '\t'
  let parsed := (wrapChunks80 in_str.length in_str).map (fun chunk => indent ++ chunk)
  let ending_indent := List.replicate (levels - 1) '\t'
  '\n' :: joinLines parsed ++ '\n' :: ending_indent

/-- A well-formed indented hex block: at least two physical lines, containing
only hex digits and layout whitespace. -/
def wellFormedHexBlock (T : List Char) : Prop :=
  2 ≤ (pySplitlines T).length ∧
    ∀ c ∈ T, (hexVal c).isSome = true ∨ c = '\t' ∨ c = ' ' ∨ c = '\n'

instance (T : List Char) : Decidable (wellFormedHexBlock T) := by
  unfold wellFormedHexBlock
  infer_instance

/-- Greedy chunking preserves content. -/
theorem wrapChunks80_join : ∀ (fuel : Nat) (s : List Char),
    (wrapChunks80 fuel s).flatten = s := by
  intro fuel
  induction fuel with
  | zero =>
    intro s
    cases s with
    | nil => rfl
    | cons c s => simp [wrapChunks80]
  | succ n ih =>
    intro s
    cases s with
    | nil => rfl
    | cons c s =>
      rw [show wrapChunks80 (n + 1) (c :: s) =
        (if (c :: s).length ≤ 80 then [c :: s]
         else (c :: s).take 80 :: wrapChunks80 n ((c :: s).drop 80)) from rfl]
      by_cases hlen : (c :: s).length ≤ 80
      · rw [if_pos hlen]
        simp
      · rw [if_neg hlen]
        simp only [List.flatten_cons]
        rw [ih]
        exact List.take_append_drop 80 (c :: s)

/-- `pyStripXml` distributes over append. -/
theorem pyStripXml_append (a b : List Char) :
    pyStripXml (a ++ b) = pyStripXml a ++ pyStripXml b := by
  simp [pyStripXml, List.filter_append]

/-- Newlines are stripped. -/
theorem pyStripXml_newline (x : List Char) :
    pyStripXml ('\n' :: x) = pyStripXml x := by
  simp [pyStripXml]

/-- Tab indents are stripped away entirely. -/
theorem pyStripXml_replicate_tab (n : Nat) :
    pyStripXml (List.replicate n '\t') = [] := by
  induction n with
  | zero => rfl
  | succ n ih => simp [pyStripXml, List.replicate_succ] at ih ⊢

/-- Stripping `"\n".join` of indented lines strips the joined lines. -/
theorem pyStripXml_joinLines (indent : List Char) (hind : pyStripXml indent = []) :
    ∀ ls : List (List Char),
      pyStripXml (joinLines (ls.map (fun chunk => indent ++ chunk))) =
        pyStripXml ls.flatten := by
  intro ls
  induction ls with
  | nil => rfl
  | cons l ls ih =>
    cases ls with
    | nil =>
      simp only [List.map_cons, List.map_nil, joinLines, List.flatten_cons,
        List.flatten_nil, List.append_nil]
      rw [pyStripXml_append, hind]
      rfl
    | cons l2 ls2 =>
      simp only [List.map_cons, joinLines, List.flatten_cons] at ih ⊢
      rw [pyStripXml_append, pyStripXml_newline, pyStripXml_append, hind, ih,
        pyStripXml_append]
      simp [pyStripXml_append]

/-- Strings without layout whitespace are fixed by the strip. -/
theorem pyStripXml_eq_self (s : List Char)
    (h : ∀ c ∈ s, c ≠ '\t' ∧ c ≠ ' ' ∧ c ≠ '\n') : pyStripXml s = s := by
  unfold pyStripXml
  have h1 : s.filter (fun c => c != '\t') = s :=
    List.filter_eq_self.mpr (fun a ha => by simpa using (h a ha).1)
  rw [h1]
  have h2 : s.filter (fun c => c != ' ') = s :=
    List.filter_eq_self.mpr (fun a ha => by simpa using (h a ha).2.1)
  rw [h2]
  exact List.filter_eq_self.mpr (fun a ha => by simpa using (h a ha).2.2)

/-- Stripping the rendered block recovers the stripped input. -/
theorem pyStripXml_string_to_xml (s : List Char) (levels : Nat) :
    pyStripXml (string_to_xml s levels) = pyStripXml s := by
  simp only [string_to_xml]
  rw [pyStripXml_append, pyStripXml_newline, pyStripXml_newline,
    pyStripXml_joinLines _ (pyStripXml_replicate_tab levels),
    pyStripXml_replicate_tab, wrapChunks80_join]
  simp

/-- C7: for every well-formed indented hex block `T`, converting `T` to a
contiguous hex string plus inferred indent level and re-rendering it as
indented text reproduces the same hex content: stripping tabs, spaces and
newlines from `string_to_xml (xml_to_string T)` yields exactly the hex string
stripped from `T`. -/
theorem C7_transcoder_round_trip (T : List Char) (h : wellFormedHexBlock T) :
    ∃ s levels, xml_to_string T = Except.ok (s, levels) ∧
      s = pyStripXml T ∧ pyStripXml (string_to_xml s levels) = s := by
  obtain ⟨hlen, _⟩ := h
  have hTne : T ≠ [] := by
    intro he
    rw [he] at hlen
    simp [pySplitlines] at hlen
  have hget : ∃ line1, (pySplitlines T).get? 1 = some line1 := by
    cases hg : (pySplitlines T).get? 1 with
    | none =>
      rw [List.get?_eq_none] at hg
      omega
    | some l => exact ⟨l, rfl⟩
  obtain ⟨line1, hline1⟩ := hget
  refine ⟨pyStripXml T, line1.count '\t', ?_, rfl, ?_⟩
  · unfold xml_to_string
    rw [if_neg hTne, hline1]
  · rw [pyStripXml_string_to_xml]
    apply pyStripXml_eq_self
    intro c hc
    unfold pyStripXml at hc
    have hc3 := List.mem_filter.mp hc
    have hc2 := List.mem_filter.mp hc3.1
    have hc1 := List.mem_filter.mp hc2.1
    exact ⟨by simpa using hc1.2, by simpa using hc2.2, by simpa using hc3.2⟩

/-- C7 witness: the round trip on the concrete block `"\n\t\tAB\n"` (two
lines, indent level 2). -/
theorem C7_transcoder_witness :
    wellFormedHexBlock ('\n' :: '\t' :: '\t' :: 'A' :: 'B' :: ['\n']) ∧
    ∃ s levels,
      xml_to_string ('\n' :: '\t' :: '\t' :: 'A' :: 'B' :: ['\n']) =
        Except.ok (s, levels) ∧
      s = pyStripXml ('\n' :: '\t' :: '\t' :: 'A' :: 'B' :: ['\n']) ∧
      pyStripXml (string_to_xml s levels) = s :=
  ⟨by decide, C7_transcoder_round_trip _ (by decide)⟩

/-! ## Serialization (`ableton_set.py` lines 218-225)

`generate_xml` concatenates a fixed header, `ET.tostring(root,
encoding="utf-8")` and a newline.  The tree is modelled without namespaces,
comments or processing instructions (none can occur in a parsed set);
attributes keep document order as CPython 3.8+ does. -/

/-- An element tree node: tag, attributes, text, children, tail. -/
inductive XElem where
  | node (tag : List Char) (attrs : List (List Char × List Char))
      (text : Option (List Char)) (children : List XElem)
      (tail : Option (List Char))

/-- `xml.sax.saxutils`-style text escaping used by `ET._escape_cdata`. -/
def escape_cdata (s : List Char) : List Char :=
  s.flatMap fun c =>
    if c = '&' then "&amp;".data
    else if c = '<' then "&lt;".data
    else if c = '>' then "&gt;".data
    else [c]

/-- `ET._escape_attrib`. -/
def escape_attrib (s : List Char) : List Char :=
  s.flatMap fun c =>
    if c = '&' then "&amp;".data
    else if c = '<' then "&lt;".data
    else if c = '>' then "&gt;".data
    else if c = '"' then "&quot;".data
    else if c = '\r' then "&#13;".data
    else if c = '\n' then "&#10;".data
    else if c = '\t' then "&#09;".data
    else [c]

/-- Python truthiness of an optional string (`None` and `""` are falsy). -/
def optTruthy : Option (List Char) → Bool
  | some (_ :: _) => true
  | _ => false

mutual

/-- `ET._serialize_xml` with the default `short_empty_elements=True`:
`<tag k="v" ...>text children</tag>` or `<tag k="v" ... />` when both text
and children are falsy, followed by the escaped tail. -/
def serializeElem : XElem → List Char
  | XElem.node tag attrs text children tail =>
    '<' :: tag ++
      (attrs.flatMap fun kv => ' ' :: kv.1 ++ '=' :: '"' :: escape_attrib kv.2 ++ ['"']) ++
      (if optTruthy text || !children.isEmpty then
        '>' :: (match text with | some t => escape_cdata t | none => []) ++
          serializeChildren children ++ '<' :: '/' :: tag ++ ['>']
      else ' ' :: '/' :: ['>']) ++
      (match tail with | some t => escape_cdata t | none => [])

/-- Serialize a child list in order. -/
def serializeChildren : List XElem → List Char
  | [] => []
  | e :: es => serializeElem e ++ serializeChildren es

end

/-- `ET.tostring(root, encoding)` for `method="xml"`: CPython writes the
`<?xml version='1.0' encoding='...'?>` declaration only when the (lowercased)
encoding is none of "unicode", "utf-8", "us-ascii"; `generate_xml` passes
exactly "utf-8", for which no declaration is emitted. -/
def ET_tostring (encoding : List Char) (root : XElem) : List Char :=
  (if encoding ≠ "unicode".data ∧ encoding ≠ "utf-8".data ∧ encoding ≠ "us-ascii".data
   then "<?xml version='1.0' encoding='".data ++ encoding ++ "'?>\n".data
   else []) ++
  serializeElem root

/-- `generate_xml` (`ableton_set.py` lines 218-225): fixed header, serialized
tree, single newline footer. -/
def generate_xml (root : XElem) : List Char :=
  "<?xml version=\"1.0\" encoding=\"UTF-8\"?>\n".data ++
    ET_tostring "utf-8".data root ++ "\n".data

/-- Whether the string contains `'<'` immediately followed by `'?'` — the
start of an XML declaration or processing instruction. -/
def hasLtQm : List Char → Bool
  | [] => false
  | c :: rest => (c == '<' && rest.head? == some '?') || hasLtQm rest

mutual

/-- Tag and attribute names as produced by parsing an XML document: nonempty
tags, no `'<'` or `'?'` in tag or attribute names. -/
def validElem : XElem → Bool
  | XElem.node tag attrs _ children _ =>
    !tag.isEmpty && !tag.contains '<' && !tag.contains '?' &&
      attrs.all (fun kv => !kv.1.contains '<' && !kv.1.contains '?') &&
      validChildren children

/-- All children valid. -/
def validChildren : List XElem → Bool
  | [] => true
  | e :: es => validElem e && validChildren es

end

/-- A serialized fragment that cannot create `"<?"` at any seam: it contains
no `"<?"` and does not end in `'<'`. -/
def goodSer (s : List Char) : Prop := hasLtQm s = false ∧ s.getLast? ≠ some '<'

/-- Appending cannot create `"<?"` when the left part does not end in `'<'`
(or the right part does not start with `'?'`). -/
theorem hasLtQm_append_false {x y : List Char} (hx : hasLtQm x = false)
    (hy : hasLtQm y = false)
    (hb : x.getLast? ≠ some '<' ∨ y.head? ≠ some '?') :
    hasLtQm (x ++ y) = false := by
  induction x with
  | nil => simpa using hy
  | cons c x ih =>
    have hx2 : (c == '<' && x.head? == some '?') = false ∧ hasLtQm x = false := by
      simpa [hasLtQm, Bool.or_eq_false_iff] using hx
    cases x with
    | nil =>
      simp only [List.nil_append, List.cons_append, hasLtQm, Bool.or_eq_false_iff]
      refine ⟨?_, hy⟩
      rcases hb with hb | hb
      · have hc : c ≠ '<' := fun he => hb (by simp [he])
        simp [hc]
      · cases hh : y.head? with
        | none => simp [hh]
        | some d =>
          have hd : d ≠ '?' := fun he => hb (by simp [hh, he])
          simp [hh, hd]
    | cons d x' =>
      have hrec : hasLtQm ((d :: x') ++ y) = false := by
        apply ih hx2.2
        rcases hb with hb | hb
        · left
          simpa [List.getLast?_cons_cons] using hb
        · right
          exact hb
      rw [show hasLtQm ((c :: d :: x') ++ y) =
        ((c == '<' && ((d :: x') ++ y).head? == some '?') || hasLtQm ((d :: x') ++ y))
        from rfl]
      rw [hrec]
      simp only [Bool.or_false]
      simpa using hx2.1

/-- A string without `'<'` is a good serialized fragment. -/
theorem goodSer_of_not_mem {s : List Char} (h : '<' ∉ s) : goodSer s := by
  constructor
  · induction s with
    | nil => rfl
    | cons c rest ih =>
      simp only [hasLtQm, Bool.or_eq_false_iff]
      have hc : c ≠ '<' := fun he => h (by simp [he])
      refine ⟨by simp [hc], ih (fun hm => h (by simp [hm]))⟩
  · intro he
    exact h (List.mem_of_mem_getLast? he)

/-- Good fragments compose. -/
theorem goodSer_append {a b : List Char} (ha : goodSer a) (hb : goodSer b) :
    goodSer (a ++ b) := by
  refine ⟨hasLtQm_append_false ha.1 hb.1 (Or.inl ha.2), ?_⟩
  cases hbb : b with
  | nil =>
    rw [List.append_nil]
    exact ha.2
  | cons x xs =>
    rw [List.getLast?_append_of_ne_nil _ (by simp [hbb])]
    rw [hbb] at hb
    exact hb.2

/-- Text escaping leaves no literal `'<'`. -/
theorem escape_cdata_no_lt (t : List Char) : '<' ∉ escape_cdata t := by
  intro hmem
  simp only [escape_cdata, List.mem_flatMap] at hmem
  obtain ⟨c, -, hc⟩ := hmem
  split_ifs at hc with h1 h2 h3
  · exact absurd hc (by decide)
  · exact absurd hc (by decide)
  · exact absurd hc (by decide)
  · rw [List.mem_singleton] at hc
    exact h2 hc.symm

/-- Attribute escaping leaves no literal `'<'`. -/
theorem escape_attrib_no_lt (t : List Char) : '<' ∉ escape_attrib t := by
  intro hmem
  simp only [escape_attrib, List.mem_flatMap] at hmem
  obtain ⟨c, -, hc⟩ := hmem
  split_ifs at hc with h1 h2 h3 h4 h5 h6 h7
  · exact absurd hc (by decide)
  · exact absurd hc (by decide)
  · exact absurd hc (by decide)
  · exact absurd hc (by decide)
  · exact absurd hc (by decide)
  · exact absurd hc (by decide)
  · exact absurd hc (by decide)
  · rw [List.mem_singleton] at hc
    exact h2 hc.symm

/-- The serialized attribute block contains no literal `'<'`. -/
theorem attrs_no_lt (attrs : List (List Char × List Char))
    (h : attrs.all (fun kv => !kv.1.contains '<' && !kv.1.contains '?') = true) :
    '<' ∉ attrs.flatMap
      (fun kv => ' ' :: kv.1 ++ '=' :: '"' :: escape_attrib kv.2 ++ ['"']) := by
  intro hmem
  simp only [List.mem_flatMap] at hmem
  obtain ⟨kv, hkv, hc⟩ := hmem
  have hk := (List.all_eq_true.mp h) kv hkv
  simp only [Bool.and_eq_true, Bool.not_eq_true'] at hk
  rcases List.mem_append.mp hc with hc | hc
  · rcases List.mem_append.mp hc with hc | hc
    · rcases List.mem_cons.mp hc with he | hc
      · exact absurd he (by decide)
      · have hcon : kv.1.contains '<' = true := List.elem_eq_true_of_mem hc
        rw [hk.1] at hcon
        exact absurd hcon (by decide)
    · rcases List.mem_cons.mp hc with he | hc
      · exact absurd he (by decide)
      · rcases List.mem_cons.mp hc with he | hc
        · exact absurd he (by decide)
        · exact escape_attrib_no_lt kv.2 hc
  · rw [List.mem_singleton] at hc
    exact absurd hc (by decide)

/-- An opening `'<'` followed by a valid tag is a good fragment. -/
theorem goodSer_lt_cons (tag : List Char) (hne : tag ≠ []) (hlt : '<' ∉ tag)
    (hqm : '?' ∉ tag) : goodSer ('<' :: tag) := by
  have htag := goodSer_of_not_mem hlt
  constructor
  · rw [show hasLtQm ('<' :: tag) =
      (('<' == '<' && tag.head? == some '?') || hasLtQm tag) from rfl]
    rw [htag.1]
    cases tag with
    | nil => exact absurd rfl hne
    | cons t ts =>
      have ht : t ≠ '?' := fun he => hqm (by simp [he])
      simp [ht]
  · rw [show ('<' :: tag) = ['<'] ++ tag from rfl,
      List.getLast?_append_of_ne_nil _ hne]
    exact htag.2

/-- A closing `"</"` followed by a valid tag is a good fragment. -/
theorem goodSer_close (tag : List Char) (hne : tag ≠ []) (hlt : '<' ∉ tag) :
    goodSer ('<' :: '/' :: tag) := by
  have htag := goodSer_of_not_mem hlt
  constructor
  · rw [show hasLtQm ('<' :: '/' :: tag) =
      (('<' == '<' && ('/' :: tag).head? == some '?') ||
        (('/' == '<' && tag.head? == some '?') || hasLtQm tag)) from rfl]
    rw [htag.1]
    simp
  · rw [show ('<' :: '/' :: tag) = ['<', '/'] ++ tag from rfl,
      List.getLast?_append_of_ne_nil _ hne]
    exact htag.2

/-- Helper for C8: serialization of validly named trees yields good fragments
(no `"<?"` anywhere, no trailing `'<'`), by strong induction on size. -/
theorem serialize_good_aux : ∀ n : Nat,
    (∀ e : XElem, sizeOf e ≤ n → validElem e = true → goodSer (serializeElem e)) ∧
    (∀ es : List XElem, sizeOf es ≤ n → validChildren es = true →
      goodSer (serializeChildren es)) := by
  intro n
  induction n with
  | zero =>
    constructor
    · intro e he _
      exfalso
      cases e
      simp at he
    · intro es he _
      exfalso
      cases es <;> simp at he
  | succ n ih =>
    constructor
    · intro e he hv
      cases e with
      | node tag attrs text children tail =>
        simp only [validElem, Bool.and_eq_true] at hv
        obtain ⟨⟨⟨⟨h1, h2⟩, h3⟩, h4⟩, h5⟩ := hv
        have htag_ne : tag ≠ [] := by
          intro h0
          rw [h0] at h1
          exact absurd h1 (by decide)
        have htag_lt : '<' ∉ tag := fun hm => by
          have h' := List.elem_eq_true_of_mem hm
          have h'' : List.elem '<' tag = false := by
            simpa [List.contains] using h2
          rw [h'] at h''
          exact absurd h'' (by decide)
        have htag_qm : '?' ∉ tag := fun hm => by
          have h' := List.elem_eq_true_of_mem hm
          have h'' : List.elem '?' tag = false := by
            simpa [List.contains] using h3
          rw [h'] at h''
          exact absurd h'' (by decide)
        have hchildsize : sizeOf children ≤ n := by
          simp only [XElem.node.sizeOf_spec] at he
          omega
        rw [serializeElem.eq_def]
        apply goodSer_append
        apply goodSer_append
        apply goodSer_append
        · exact goodSer_lt_cons tag htag_ne htag_lt htag_qm
        · exact goodSer_of_not_mem (attrs_no_lt attrs h4)
        · by_cases hb : (optTruthy text || !children.isEmpty) = true
          · rw [if_pos hb]
            apply goodSer_append
            apply goodSer_append
            apply goodSer_append
            · apply goodSer_of_not_mem
              intro hm
              rcases List.mem_cons.mp hm with he' | hm
              · exact absurd he' (by decide)
              · cases text with
                | none => simp at hm
                | some t => exact escape_cdata_no_lt t hm
            · exact (ih.2) children hchildsize h5
            · exact goodSer_close tag htag_ne htag_lt
            · exact goodSer_of_not_mem (by decide)
          · rw [if_neg hb]
            exact goodSer_of_not_mem (by decide)
        · cases tail with
          | none => exact goodSer_of_not_mem (by simp)
          | some t => exact goodSer_of_not_mem (escape_cdata_no_lt t)
    · intro es he hv
      cases es with
      | nil => exact goodSer_of_not_mem (by simp [serializeChildren])
      | cons e es =>
        simp only [validChildren, Bool.and_eq_true] at hv
        have hsz : sizeOf e ≤ n ∧ sizeOf es ≤ n := by
          simp only [List.cons.sizeOf_spec] at he
          omega
        rw [serializeChildren]
        exact goodSer_append ((ih.1) e hsz.1 hv.1) ((ih.2) es hsz.2 hv.2)

/-- C8: for every loaded document tree (valid parsed tag/attribute names),
the serialized payload is exactly the fixed header
`<?xml version="1.0" encoding="UTF-8"?>` plus newline, the serialized tree,
and a single trailing newline; `ET.tostring(root, encoding="utf-8")`
contributes no XML declaration of its own, and nothing after the header
contains `"<?"` — in particular there is no second XML declaration. -/
theorem C8_generate_xml_payload (root : XElem) (h : validElem root = true) :
    generate_xml root =
      "<?xml version=\"1.0\" encoding=\"UTF-8\"?>\n".data ++
        serializeElem root ++ "\n".data ∧
    ET_tostring "utf-8".data root = serializeElem root ∧
    hasLtQm (serializeElem root ++ "\n".data) = false := by
  have hnodecl : ET_tostring "utf-8".data root = serializeElem root := by
    unfold ET_tostring
    rw [if_neg (by
      rintro ⟨-, hne, -⟩
      exact hne rfl)]
    simp
  have hgood : goodSer (serializeElem root) :=
    (serialize_good_aux (sizeOf root)).1 root (le_refl _) h
  refine ⟨?_, hnodecl, ?_⟩
  · unfold generate_xml
    rw [hnodecl]
  · exact hasLtQm_append_false hgood.1 (by decide) (Or.inl hgood.2)

/-- C8 witness: the payload shape on a small concrete document. -/
theorem C8_generate_xml_witness :
    validElem (XElem.node "Ableton".data [("Creator".data, "x".data)] none
      [XElem.node "B".data [] none [] none] none) = true ∧
    generate_xml (XElem.node "Ableton".data [("Creator".data, "x".data)] none
        [XElem.node "B".data [] none [] none] none) =
      "<?xml version=\"1.0\" encoding=\"UTF-8\"?>\n".data ++
        serializeElem (XElem.node "Ableton".data [("Creator".data, "x".data)] none
          [XElem.node "B".data [] none [] none] none) ++ "\n".data ∧
    hasLtQm (serializeElem (XElem.node "Ableton".data [("Creator".data, "x".data)] none
      [XElem.node "B".data [] none [] none] none) ++ "\n".data) = false :=
  ⟨by decide,
    (C8_generate_xml_payload _ (by decide)).1,
    (C8_generate_xml_payload _ (by decide)).2.2⟩
